import Mathlib

/-!
Verification of the Synchronized Versioned Store (SVS) of the `lens`
repository against its specification.

The concrete code present in the repository sources is embedded directly
(`HotbarStore.fromStore`, `LogTabStore.getData`, `BaseRegistry.add`).
The generic SVS engine (`BaseStore`, the migration runner, the singleton
registry, the cross-process sync channel, the debounced file backend) is
not part of the provided sources — only its callers are — so those parts
are modelled from the specification, as noted on each definition.

Schema versions are modelled as natural numbers: the specification only
ever compares versions by their total order, so the SemVer strings of the
implementation are abstracted to `Nat`.
-/

namespace Lens

/-- JSON-like document values, the domain of the Equality Oracle and of the
persisted documents.  `jundef` stands for a present-but-`undefined` field,
which the oracle must treat like an absent field. -/
inductive JVal where
  | jnull : JVal
  | jundef : JVal
  | jbool (b : Bool) : JVal
  | jnum (n : Int) : JVal
  | jstr (s : String) : JVal
  | jarr (xs : List JVal) : JVal
  | jobj (fields : List (String × JVal)) : JVal

mutual

/-- Plain structural (constructor-wise) equality test on document values. -/
def jbeq : JVal → JVal → Bool
  | .jnull, .jnull => true
  | .jundef, .jundef => true
  | .jbool a, .jbool b => a == b
  | .jnum a, .jnum b => a == b
  | .jstr a, .jstr b => a == b
  | .jarr a, .jarr b => jbeqList a b
  | .jobj a, .jobj b => jbeqFields a b
  | _, _ => false

def jbeqList : List JVal → List JVal → Bool
  | [], [] => true
  | x :: xs, y :: ys => jbeq x y && jbeqList xs ys
  | _, _ => false

def jbeqFields : List (String × JVal) → List (String × JVal) → Bool
  | [], [] => true
  | (k, v) :: fs, (l, w) :: gs => k == l && jbeq v w && jbeqFields fs gs
  | _, _ => false

end

mutual

theorem jbeq_refl : (a : JVal) → jbeq a a = true
  | .jnull => rfl
  | .jundef => rfl
  | .jbool b => by simp [jbeq]
  | .jnum n => by simp [jbeq]
  | .jstr s => by simp [jbeq]
  | .jarr xs => by simp [jbeq, jbeqList_refl xs]
  | .jobj fs => by simp [jbeq, jbeqFields_refl fs]

theorem jbeqList_refl : (xs : List JVal) → jbeqList xs xs = true
  | [] => rfl
  | x :: xs => by simp [jbeqList, jbeq_refl x, jbeqList_refl xs]

theorem jbeqFields_refl : (fs : List (String × JVal)) → jbeqFields fs fs = true
  | [] => rfl
  | (k, v) :: fs => by simp [jbeqFields, jbeq_refl v, jbeqFields_refl fs]

end

/-- Whether a document value is the `undefined` marker. -/
def isUndef : JVal → Bool
  | .jundef => true
  | _ => false

/-- Insert an object field into a key-sorted field list (insertion sort step). -/
def insertField (p : String × JVal) : List (String × JVal) → List (String × JVal)
  | [] => [p]
  | q :: qs => if p.1 ≤ q.1 then p :: q :: qs else q :: insertField p qs

/-- Sort object fields by key, so that key order is ignored by the oracle. -/
def sortFields (fs : List (String × JVal)) : List (String × JVal) :=
  fs.foldr insertField []

mutual

/-- Modelled from the spec: normal form of a document value for the Equality
Oracle — object keys sorted, `undefined` fields dropped (absent vs
`undefined` are equal). -/
def norm : JVal → JVal
  | .jnull => .jnull
  | .jundef => .jundef
  | .jbool b => .jbool b
  | .jnum n => .jnum n
  | .jstr s => .jstr s
  | .jarr xs => .jarr (normList xs)
  | .jobj fs => .jobj (sortFields ((normFields fs).filter (fun p => !(isUndef p.2))))

def normList : List JVal → List JVal
  | [] => []
  | x :: xs => norm x :: normList xs

def normFields : List (String × JVal) → List (String × JVal)
  | [] => []
  | (k, v) :: fs => (k, norm v) :: normFields fs

end

/-- Modelled from the spec: the Equality Oracle `equal(a, b)` — deep
structural comparison ignoring object key order and treating absent vs
`undefined` fields as equal. -/
def jeq (a b : JVal) : Bool :=
  jbeq (norm a) (norm b)

/-- The Equality Oracle is reflexive. -/
theorem jeq_refl (a : JVal) : jeq a a = true :=
  jbeq_refl (norm a)

/-- Modelled from the spec: the observable state of one Store Instance that
the `mutate` contract touches — the live model, whether a debounced flush is
scheduled, and the list of `Snapshot` broadcasts emitted so far. -/
structure StoreState where
  model : JVal
  pendingFlush : Bool
  broadcasts : List JVal

/-- Modelled from the spec: `mutate(fn)` applies `fn` to the model and, when
the result differs according to the Equality Oracle, replaces the model,
schedules a durable flush and broadcasts a `Snapshot`; otherwise it is a
no-op. -/
def mutate (s : StoreState) (fn : JVal → JVal) : StoreState :=
  let next := fn s.model
  if jeq next s.model then s
  else { model := next, pendingFlush := true, broadcasts := s.broadcasts ++ [next] }

/-- Modelled from the spec: the state of a replica-side Store Instance — its
mirrored model and the number of update notifications delivered to local
observers. -/
structure ReplicaState where
  model : JVal
  updateCount : Nat

/-- Modelled from the spec: reconciliation of an incoming `Snapshot` on a
replica — skipped (no model change, no update notification) when the
snapshot is structurally equal to the current local model, otherwise the
local model is overwritten and observers are notified. -/
def applySnapshot (s : ReplicaState) (m : JVal) : ReplicaState :=
  if jeq m s.model then s
  else { model := m, updateCount := s.updateCount + 1 }

/-- The on-disk representation of one store: `{version, data}`. -/
structure PersistedDoc (Doc : Type) where
  version : Nat
  data : Doc

/-- Modelled from the spec: the ordered migration table — a list of
`(fromVersion, transform)` entries. -/
def MigrationTable (Doc : Type) : Type :=
  List (Nat × (Doc → Doc))

/-- The current schema version: the highest version in the migration table. -/
def currentVersion {Doc : Type} (table : MigrationTable Doc) : Nat :=
  (table.map Prod.fst).foldr max 0

/-- Failure of the Migration Engine: the stored version is newer than the
highest known migration. -/
inductive MigrationFailure where
  | schemaTooNew

/-- Modelled from the spec: the Migration Engine.  Given the stored version
`v` and the raw document `d`, it fails with `SchemaTooNewError` when `v`
exceeds the highest known migration version, and otherwise applies every
transform whose `fromVersion` exceeds `v` in table order, returning the
current version, the upgraded document and the trace of `fromVersion`s of
the transforms that were applied. -/
def runMigrations {Doc : Type} (table : MigrationTable Doc) (v : Nat) (d : Doc) :
    Except MigrationFailure (Nat × Doc × List Nat) :=
  if currentVersion table < v then .error .schemaTooNew
  else
    let steps := table.filter (fun e => v < e.1)
    let r := steps.foldl (fun acc e => (e.2 acc.1, acc.2 ++ [e.1])) (d, ([] : List Nat))
    .ok (currentVersion table, r.1, r.2)

/-- Log entries emitted by the Durable File Backend's `load`. -/
inductive LoadLogEntry where
  | schemaTooNewWarning

/-- Modelled from the spec: `load(descriptor)` — reads the file if present,
else returns `{version: current, data: initialModel}`; runs the Migration
Engine on a present file; on `SchemaTooNewError` it falls back to
`initialModel` at the current version and only logs the error (it is a total
function, so it never throws).  Besides the resulting document it returns
the trace of applied migration versions and the emitted log entries. -/
def load {Doc : Type} (table : MigrationTable Doc) (initialModel : Doc)
    (file : Option (PersistedDoc Doc)) :
    PersistedDoc Doc × List Nat × List LoadLogEntry :=
  match file with
  | none => (⟨currentVersion table, initialModel⟩, [], [])
  | some doc =>
    match runMigrations table doc.version doc.data with
    | .ok (v, d2, trace) => (⟨v, d2⟩, trace, [])
    | .error .schemaTooNew =>
      (⟨currentVersion table, initialModel⟩, [], [.schemaTooNewWarning])

theorem foldl_transform_trace {Doc : Type} (steps : List (Nat × (Doc → Doc)))
    (d : Doc) (t : List Nat) :
    (steps.foldl (fun acc e => (e.2 acc.1, acc.2 ++ [e.1])) (d, t)).2 =
      t ++ steps.map Prod.fst := by
  induction steps generalizing d t with
  | nil => simp
  | cons e es ih => simp [List.foldl_cons, ih]

/-- C1: for a stored version below the current schema version, the Migration
Engine succeeds, tags the result with the current version, and the applied
transforms are exactly those with `fromVersion > v`, in ascending version
order, each exactly once; and the engine is deterministic — the same table,
version and document always produce the same output. -/
theorem migrate_applies_pending_ascending {Doc : Type}
    (table : MigrationTable Doc) (v : Nat) (d : Doc)
    (hsorted : table.Pairwise (fun a b => a.1 < b.1))
    (hv : v < currentVersion table) :
    ∃ d2 trace,
      runMigrations table v d = .ok (currentVersion table, d2, trace) ∧
      trace = (table.filter (fun e => v < e.1)).map Prod.fst ∧
      trace.Pairwise (· < ·) ∧
      trace.Nodup ∧
      (∀ fv ∈ table.map Prod.fst, v < fv → fv ∈ trace) ∧
      (∀ fv ∈ trace, v < fv ∧ fv ∈ table.map Prod.fst) ∧
      (∀ t2 v2 d3, t2 = table → v2 = v → d3 = d →
        runMigrations t2 v2 d3 = runMigrations table v d) := by
  have hrun : runMigrations table v d =
      .ok (currentVersion table,
        ((table.filter (fun e => v < e.1)).foldl
          (fun acc e => (e.2 acc.1, acc.2 ++ [e.1])) (d, ([] : List Nat))).1,
        (table.filter (fun e => v < e.1)).map Prod.fst) := by
    simp only [runMigrations, if_neg (Nat.not_lt.mpr (Nat.le_of_lt hv))]
    rw [foldl_transform_trace]
    simp
  refine ⟨_, _, hrun, rfl, ?_, ?_, ?_, ?_, ?_⟩
  · have hfil : (table.filter (fun e => v < e.1)).Pairwise (fun a b => a.1 < b.1) :=
      List.Pairwise.sublist (List.filter_sublist table) hsorted
    exact List.pairwise_map.mpr hfil
  · have hfil : (table.filter (fun e => v < e.1)).Pairwise (fun a b => a.1 < b.1) :=
      List.Pairwise.sublist (List.filter_sublist table) hsorted
    exact List.Pairwise.imp (fun h => Nat.ne_of_lt h) (List.pairwise_map.mpr hfil)
  · intro fv hmem hlt
    rcases List.mem_map.mp hmem with ⟨e, he, hfst⟩
    exact List.mem_map.mpr ⟨e, List.mem_filter.mpr ⟨he, by simp [hfst, hlt]⟩, hfst⟩
  · intro fv hmem
    rcases List.mem_map.mp hmem with ⟨e, he, hfst⟩
    rcases List.mem_filter.mp he with ⟨he2, hlt⟩
    refine ⟨hfst ▸ of_decide_eq_true hlt, List.mem_map.mpr ⟨e, he2, hfst⟩⟩
  · intro t2 v2 d3 h1 h2 h3
    rw [h1, h2, h3]

/-- C1 witness: the theorem applied to a concrete two-entry table. -/
theorem migrate_applies_pending_ascending_case :
    ∃ d2 trace,
      runMigrations [(1, fun n => n + 1), (2, fun n => n * 2)] 0 (5 : Nat) =
        .ok (currentVersion [(1, fun n => n + 1), (2, fun n => n * 2)], d2, trace) ∧
      trace = (([(1, fun n => n + 1), (2, fun n => n * 2)] :
          MigrationTable Nat).filter (fun e => 0 < e.1)).map Prod.fst ∧
      trace.Pairwise (· < ·) ∧
      trace.Nodup ∧
      (∀ fv ∈ ([(1, fun n => n + 1), (2, fun n => n * 2)] :
          MigrationTable Nat).map Prod.fst, 0 < fv → fv ∈ trace) ∧
      (∀ fv ∈ trace, 0 < fv ∧ fv ∈ ([(1, fun n => n + 1), (2, fun n => n * 2)] :
          MigrationTable Nat).map Prod.fst) ∧
      (∀ t2 v2 d3, t2 = [(1, fun n => n + 1), (2, fun n => n * 2)] → v2 = 0 → d3 = 5 →
        runMigrations t2 v2 d3 =
          runMigrations [(1, fun n => n + 1), (2, fun n => n * 2)] 0 5) :=
  migrate_applies_pending_ascending [(1, fun n => n + 1), (2, fun n => n * 2)] 0 5
    (by simp [List.pairwise_cons]) (by simp [currentVersion])

/-- C2: when the stored version is newer than the highest version in the
migration table, `load` does not throw — the `SchemaTooNewError` is only
logged and the result is `initialModel` tagged with the current version,
with no migration applied. -/
theorem load_future_version_falls_back {Doc : Type}
    (table : MigrationTable Doc) (initialModel : Doc) (doc : PersistedDoc Doc)
    (h : currentVersion table < doc.version) :
    load table initialModel (some doc) =
      (⟨currentVersion table, initialModel⟩, [], [.schemaTooNewWarning]) := by
  simp [load, runMigrations, h]

/-- C2 witness: the theorem applied to a concrete future-version document. -/
theorem load_future_version_falls_back_case :
    load [(1, fun n => n + 1)] (7 : Nat) (some ⟨5, 0⟩) =
      (⟨currentVersion [(1, fun n => n + 1)], 7⟩, [], [.schemaTooNewWarning]) :=
  load_future_version_falls_back [(1, fun n => n + 1)] 7 ⟨5, 0⟩
    (by simp [currentVersion])

/-- A single item pinned to a hotbar (`HotbarItem` in `hotbar-store.ts`). -/
structure HotbarItem where
  uid : String
  params : List (String × String)

/-- A named hotbar (`Hotbar` in `hotbar-store.ts`). -/
structure Hotbar where
  name : String
  items : List HotbarItem

/-- The hotbar store model (`HotbarStoreModel` in `hotbar-store.ts`). -/
structure HotbarStoreModel where
  hotbars : List Hotbar

/-- The default hotbar created on fresh start: `{name: "default", items: []}`. -/
def defaultHotbar : Hotbar := { name := "default", items := [] }

/-- From `HotbarStore.fromStore`: `this.hotbars = data.hotbars || [default]`.
The argument is the possibly-absent `hotbars` field of the partial model. -/
def fromStore (data : Option (List Hotbar)) : HotbarStoreModel :=
  { hotbars := data.getD [defaultHotbar] }

/-- The hotbar store's load pipeline: the Durable File Backend loads and
migrates the on-disk partial model (absent file ⇒ absent data), then
`HotbarStore.fromStore` projects it into the live model. -/
def hotbarLoad (table : MigrationTable (Option (List Hotbar)))
    (file : Option (PersistedDoc (Option (List Hotbar)))) :
    HotbarStoreModel × Nat × List Nat × List LoadLogEntry :=
  let r := load table none file
  (fromStore r.1.data, r.1.version, r.2.1, r.2.2)

/-- C3: on fresh start (no persisted file) the hotbar store loads the
initial model `{hotbars: [{name: "default", items: []}]}` at the current
version, with no migration transform invoked; and whenever the loaded data
carries no `hotbars` field, `fromStore` likewise yields the initial model. -/
theorem hotbar_fresh_start (table : MigrationTable (Option (List Hotbar))) :
    hotbarLoad table none =
      ({ hotbars := [defaultHotbar] }, currentVersion table, [], []) ∧
    fromStore none = { hotbars := [defaultHotbar] } := by
  constructor
  · simp [hotbarLoad, load, fromStore]
  · simp [fromStore]

/-- C4: the Equality Oracle is reflexive, and `mutate` with the identity
function leaves the store state unchanged — in particular it schedules no
disk flush and broadcasts no `Snapshot`. -/
theorem equal_refl_and_identity_mutate_is_noop :
    (∀ m : JVal, jeq m m = true) ∧
    (∀ s : StoreState, mutate s (fun m => m) = s ∧
      (mutate s (fun m => m)).pendingFlush = s.pendingFlush ∧
      (mutate s (fun m => m)).broadcasts = s.broadcasts) := by
  refine ⟨jeq_refl, fun s => ?_⟩
  have h : mutate s (fun m => m) = s := by
    simp [mutate, jeq_refl]
  exact ⟨h, by rw [h], by rw [h]⟩

/-- C7: snapshot reconciliation on a replica is idempotent — applying the
same `Snapshot` twice in succession leaves the replica's model and its
update-notification count unchanged after the second application. -/
theorem applySnapshot_idempotent (s : ReplicaState) (m : JVal) :
    applySnapshot (applySnapshot s m) m = applySnapshot s m := by
  by_cases h : jeq m s.model = true
  · simp [applySnapshot, h]
  · simp [applySnapshot, h, jeq_refl]

/-- Modelled from the spec: the state of the Durable File Backend's
debounced flush queue — the coalesced pending document, how many
consecutive mutation slots the oldest pending write has already waited,
and the sequence of documents actually written to disk. -/
structure FlushState (Doc : Type) where
  pending : Option Doc
  waited : Nat
  writes : List Doc

/-- Modelled from the spec: one discrete time slot of the debounced flush
queue.  `some d` is a mutation scheduling a flush of document `d` (it
coalesces with any pending write; once the pending write has waited the
bounded maximum delay `maxWait`, the trailing-edge flush fires even under
continuous mutation).  `none` is a quiescent slot, at which the debounce
fires any pending write. -/
def flushTick {Doc : Type} (maxWait : Nat) (s : FlushState Doc) (ev : Option Doc) :
    FlushState Doc :=
  match ev with
  | some d =>
    match s.pending with
    | none =>
      if maxWait ≤ 0 then { pending := none, waited := 0, writes := s.writes ++ [d] }
      else { pending := some d, waited := 0, writes := s.writes }
    | some _ =>
      if maxWait ≤ s.waited + 1 then
        { pending := none, waited := 0, writes := s.writes ++ [d] }
      else { pending := some d, waited := s.waited + 1, writes := s.writes }
  | none =>
    match s.pending with
    | none => s
    | some d => { pending := none, waited := 0, writes := s.writes ++ [d] }

/-- Run the flush queue over a sequence of time slots. -/
def runFlush {Doc : Type} (maxWait : Nat) (evs : List (Option Doc)) (s : FlushState Doc) :
    FlushState Doc :=
  evs.foldl (flushTick maxWait) s

theorem runFlush_sched_within {Doc : Type} (maxWait : Nat) :
    ∀ (ds : List Doc) (d0 : Doc) (w : Nat) (ws : List Doc),
      w + ds.length < maxWait →
      runFlush maxWait (ds.map some) ⟨some d0, w, ws⟩ =
        ⟨some (ds.getLastD d0), w + ds.length, ws⟩ := by
  intro ds
  induction ds with
  | nil => intro d0 w ws h; simp [runFlush]
  | cons d rest ih =>
    intro d0 w ws h
    have hlt : ¬ maxWait ≤ w + 1 := by
      simp only [List.length_cons] at h
      omega
    have hstep : flushTick maxWait ⟨some d0, w, ws⟩ (some d) =
        ⟨some d, w + 1, ws⟩ := by
      simp [flushTick, hlt]
    have hrest : w + 1 + rest.length < maxWait := by
      simp only [List.length_cons] at h
      omega
    calc runFlush maxWait ((d :: rest).map some) ⟨some d0, w, ws⟩
        = runFlush maxWait (rest.map some) ⟨some d, w + 1, ws⟩ := by
          simp [runFlush, hstep]
      _ = ⟨some (rest.getLastD d), w + 1 + rest.length, ws⟩ := ih d w.succ ws hrest
      _ = ⟨some ((d :: rest).getLastD d0), w + (d :: rest).length, ws⟩ := by
          have harith : w + 1 + rest.length = w + (rest.length + 1) := by omega
          rw [List.getLastD_cons, List.length_cons, harith]

theorem runFlush_sched_forced {Doc : Type} (maxWait : Nat) :
    ∀ (ds : List Doc) (d1 d0 : Doc) (w : Nat) (ws : List Doc),
      w + 1 + ds.length = maxWait →
      runFlush maxWait ((d1 :: ds).map some) ⟨some d0, w, ws⟩ =
        ⟨none, 0, ws ++ [ds.getLastD d1]⟩ := by
  intro ds
  induction ds with
  | nil =>
    intro d1 d0 w ws h
    have hle : maxWait ≤ w + 1 := by simp at h; omega
    simp [runFlush, flushTick, hle]
  | cons d2 rest ih =>
    intro d1 d0 w ws h
    have hlt : ¬ maxWait ≤ w + 1 := by
      simp only [List.length_cons] at h
      omega
    have hstep : flushTick maxWait ⟨some d0, w, ws⟩ (some d1) =
        ⟨some d1, w + 1, ws⟩ := by
      simp [flushTick, hlt]
    have hrest : w + 1 + 1 + rest.length = maxWait := by
      simp only [List.length_cons] at h
      omega
    calc runFlush maxWait ((d1 :: d2 :: rest).map some) ⟨some d0, w, ws⟩
        = runFlush maxWait ((d2 :: rest).map some) ⟨some d1, w + 1, ws⟩ := by
          simp [runFlush, hstep]
      _ = ⟨none, 0, ws ++ [rest.getLastD d2]⟩ := ih d2 d1 w.succ ws hrest
      _ = ⟨none, 0, ws ++ [(d2 :: rest).getLastD d1]⟩ := by
          rw [List.getLastD_cons]

/-- C5: flush coalescing and bounded deferral.  Starting from an idle
backend: (1) `N = ds.length + 1 ≥ 1` mutations inside a single debounce
window followed by quiescence produce exactly one disk write, and it
carries the model of the last mutation; (2) under continuous mutation the
trailing-edge flush still fires once the bounded maximum delay is reached,
again writing the latest model exactly once. -/
theorem flush_coalesces_and_trailing_edge_fires {Doc : Type}
    (maxWait : Nat) (d : Doc) (ds : List Doc) (ws : List Doc) :
    (ds.length < maxWait →
      runFlush maxWait ((d :: ds).map some ++ [none]) ⟨none, 0, ws⟩ =
        ⟨none, 0, ws ++ [ds.getLastD d]⟩) ∧
    (ds.length = maxWait →
      runFlush maxWait ((d :: ds).map some) ⟨none, 0, ws⟩ =
        ⟨none, 0, ws ++ [ds.getLastD d]⟩) := by
  constructor
  · intro h
    have hpos : ¬ maxWait ≤ 0 := by omega
    have hstep : flushTick maxWait ⟨none, 0, ws⟩ (some d) = ⟨some d, 0, ws⟩ := by
      simp [flushTick, hpos]
    have hmid : runFlush maxWait (ds.map some) ⟨some d, 0, ws⟩ =
        ⟨some (ds.getLastD d), 0 + ds.length, ws⟩ :=
      runFlush_sched_within maxWait ds d 0 ws (by omega)
    calc runFlush maxWait ((d :: ds).map some ++ [none]) ⟨none, 0, ws⟩
        = runFlush maxWait (ds.map some ++ [none]) ⟨some d, 0, ws⟩ := by
          simp [runFlush, hstep]
      _ = flushTick maxWait (runFlush maxWait (ds.map some) ⟨some d, 0, ws⟩) none := by
          simp [runFlush, List.foldl_append]
      _ = ⟨none, 0, ws ++ [ds.getLastD d]⟩ := by
          rw [hmid]; simp [flushTick]
  · intro h
    cases ds with
    | nil =>
      have h0 : maxWait = 0 := by simpa using h.symm
      simp [runFlush, flushTick, h0]
    | cons d1 rest =>
      have hpos : ¬ maxWait ≤ 0 := by
        simp only [List.length_cons] at h
        omega
      have hstep : flushTick maxWait ⟨none, 0, ws⟩ (some d) = ⟨some d, 0, ws⟩ := by
        simp [flushTick, hpos]
      have hforced : runFlush maxWait ((d1 :: rest).map some) ⟨some d, 0, ws⟩ =
          ⟨none, 0, ws ++ [rest.getLastD d1]⟩ :=
        runFlush_sched_forced maxWait rest d1 d 0 ws (by
          simp only [List.length_cons] at h
          omega)
      calc runFlush maxWait ((d :: d1 :: rest).map some) ⟨none, 0, ws⟩
          = runFlush maxWait ((d1 :: rest).map some) ⟨some d, 0, ws⟩ := by
            simp [runFlush, hstep]
        _ = ⟨none, 0, ws ++ [rest.getLastD d1]⟩ := hforced
        _ = ⟨none, 0, ws ++ [(d1 :: rest).getLastD d]⟩ := by
            rw [List.getLastD_cons]

/-- C5 witness: three mutations in one window yield one write of the third
model; with the maximum delay reached under continuous mutation, the
trailing-edge flush fires. -/
theorem flush_coalesces_and_trailing_edge_fires_case :
    runFlush 3 (([10, 20, 30] : List Nat).map some ++ [none]) ⟨none, 0, []⟩ =
      ⟨none, 0, [] ++ [([20, 30] : List Nat).getLastD 10]⟩ ∧
    runFlush 2 (([1, 2, 3] : List Nat).map some) ⟨none, 0, []⟩ =
      ⟨none, 0, [] ++ [([2, 3] : List Nat).getLastD 1]⟩ :=
  ⟨(flush_coalesces_and_trailing_edge_fires 3 10 [20, 30] []).1 (by decide),
   (flush_coalesces_and_trailing_edge_fires 2 1 [2, 3] []).2 (by decide)⟩

/-- The wire messages of the Cross-Process Sync Channel: a full-state
`Snapshot` (authority → replica) or a proposed-mutation `Intent`
(replica → authority). -/
inductive SyncMsg where
  | snapshot (m : JVal)
  | intent (mutation : JVal → JVal)

/-- Events at the Cross-Process Sync Channel: a replica attaching, or an
accepted mutation applied at the authority (a local call or an incoming
`Intent`). -/
inductive ChanEvent where
  | attach (r : Nat)
  | mutateAuthority (f : JVal → JVal)

/-- Modelled from the spec: the channel-visible state — the authority's
model, the attached replicas, and the per-replica sequence of messages
delivered to it (in delivery order). -/
structure ChanState where
  model : JVal
  attached : List Nat
  inbox : Nat → List SyncMsg

def initChan (m0 : JVal) : ChanState :=
  { model := m0, attached := [], inbox := fun _ => [] }

/-- Modelled from the spec: one channel step.  On replica attach the channel
delivers exactly one `Snapshot` of the authority's current state to that
replica before anything else; after every accepted mutation the authority
rebroadcasts a `Snapshot` to every attached replica (skipped entirely when
the mutation leaves the model structurally unchanged). -/
def chanStep (s : ChanState) : ChanEvent → ChanState
  | .attach r =>
    { model := s.model,
      attached := r :: s.attached,
      inbox := fun q => if q = r then [.snapshot s.model] else s.inbox q }
  | .mutateAuthority f =>
    let next := f s.model
    if jeq next s.model then s
    else
      { model := next,
        attached := s.attached,
        inbox := fun q =>
          if q ∈ s.attached then s.inbox q ++ [.snapshot next] else s.inbox q }

def runChan (s : ChanState) (evs : List ChanEvent) : ChanState :=
  evs.foldl chanStep s

theorem runChan_inbox_append (r : Nat) :
    ∀ (evs : List ChanEvent) (s : ChanState), ChanEvent.attach r ∉ evs →
      ∃ tail, (runChan s evs).inbox r = s.inbox r ++ tail := by
  intro evs
  induction evs with
  | nil => intro s _; exact ⟨[], by simp [runChan]⟩
  | cons ev rest ih =>
    intro s hmem
    have hr : ChanEvent.attach r ∉ rest := fun hx => hmem (List.mem_cons_of_mem ev hx)
    have hone : ∃ t1, (chanStep s ev).inbox r = s.inbox r ++ t1 := by
      cases ev with
      | attach q =>
        have hq : ¬ (r = q) := by
          intro he
          exact hmem (by simp [he])
        exact ⟨[], by simp [chanStep, hq]⟩
      | mutateAuthority f =>
        by_cases hj : jeq (f s.model) s.model = true
        · exact ⟨[], by simp [chanStep, hj]⟩
        · by_cases ha : r ∈ s.attached
          · exact ⟨[.snapshot (f s.model)], by simp [chanStep, hj, ha]⟩
          · exact ⟨[], by simp [chanStep, hj, ha]⟩
    rcases hone with ⟨t1, h1⟩
    rcases ih (chanStep s ev) hr with ⟨t2, h2⟩
    refine ⟨t1 ++ t2, ?_⟩
    calc (runChan s (ev :: rest)).inbox r
        = (runChan (chanStep s ev) rest).inbox r := by simp [runChan]
      _ = (chanStep s ev).inbox r ++ t2 := h2
      _ = s.inbox r ++ (t1 ++ t2) := by rw [h1, List.append_assoc]

/-- C6: on replica attach the channel delivers exactly one `Snapshot` of the
authority's current state to that replica — immediately after the attach its
delivered-message sequence is exactly that one snapshot — and every message
delivered by later events comes after it, so the baseline is always observed
first. -/
theorem attach_delivers_baseline_snapshot (evs1 evs2 : List ChanEvent)
    (m0 : JVal) (r : Nat) (h : ChanEvent.attach r ∉ evs2) :
    ((chanStep (runChan (initChan m0) evs1) (.attach r)).inbox r =
      [.snapshot (runChan (initChan m0) evs1).model]) ∧
    ∃ rest, (runChan (initChan m0) (evs1 ++ .attach r :: evs2)).inbox r =
      .snapshot (runChan (initChan m0) evs1).model :: rest := by
  constructor
  · simp [chanStep]
  · rcases runChan_inbox_append r evs2 (chanStep (runChan (initChan m0) evs1) (.attach r)) h
      with ⟨tail, htail⟩
    refine ⟨tail, ?_⟩
    have hsplit : runChan (initChan m0) (evs1 ++ .attach r :: evs2) =
        runChan (chanStep (runChan (initChan m0) evs1) (.attach r)) evs2 := by
      simp [runChan, List.foldl_append]
    rw [hsplit, htail]
    simp [chanStep]

/-- C6 witness: the theorem applied to a concrete run — one prior mutation,
then replica 0 attaches, then replica 1 attaches and a further mutation
occurs. -/
theorem attach_delivers_baseline_snapshot_case :
    ((chanStep (runChan (initChan .jnull) [.mutateAuthority (fun _ => .jnum 1)])
        (.attach 0)).inbox 0 =
      [.snapshot (runChan (initChan .jnull)
        [.mutateAuthority (fun _ => .jnum 1)]).model]) ∧
    ∃ rest, (runChan (initChan .jnull)
        ([.mutateAuthority (fun _ => .jnum 1)] ++ .attach 0 ::
          [.attach 1, .mutateAuthority (fun _ => .jnum 2)])).inbox 0 =
      .snapshot (runChan (initChan .jnull)
        [.mutateAuthority (fun _ => .jnum 1)]).model :: rest :=
  attach_delivers_baseline_snapshot [.mutateAuthority (fun _ => .jnum 1)]
    [.attach 1, .mutateAuthority (fun _ => .jnum 2)] .jnull 0
    (by
      intro hmem
      simp [List.mem_cons] at hmem)

/-- Modelled from the spec: the Store Registry — a process-wide table from
store name to a (lazily constructed) store-instance identifier, plus the
counter used to construct fresh instances. -/
structure Registry where
  table : List (String × Nat)
  nextId : Nat

/-- Modelled from the spec: `getOrCreate(descriptor)` — returns the existing
instance for the store name if one exists, otherwise constructs a fresh
instance, records it under the name and returns it. -/
def getOrCreate (reg : Registry) (name : String) : Nat × Registry :=
  match reg.table.lookup name with
  | some i => (i, reg)
  | none => (reg.nextId, ⟨(name, reg.nextId) :: reg.table, reg.nextId + 1⟩)

/-- Run a sequence of `getOrCreate` calls, keeping only the registry. -/
def runCalls (reg : Registry) (names : List String) : Registry :=
  names.foldl (fun r n => (getOrCreate r n).2) reg

theorem getOrCreate_keeps_lookup (reg : Registry) (n name : String) (i : Nat)
    (h : reg.table.lookup name = some i) :
    ((getOrCreate reg n).2).table.lookup name = some i := by
  unfold getOrCreate
  cases hn : reg.table.lookup n with
  | some j => simpa using h
  | none =>
    have hne : (name == n) = false := by
      rcases he : name == n with _ | _
      · rfl
      · have : name = n := by simpa using he
        rw [this, hn] at h
        cases h
    simpa [List.lookup, hne] using h

theorem getOrCreate_found (reg : Registry) (name : String) (i : Nat)
    (h : reg.table.lookup name = some i) :
    getOrCreate reg name = (i, reg) := by
  unfold getOrCreate
  rw [h]

theorem runCalls_keeps_lookup (name : String) (i : Nat) :
    ∀ (names : List String) (reg : Registry),
      reg.table.lookup name = some i →
      (runCalls reg names).table.lookup name = some i := by
  intro names
  induction names with
  | nil => intro reg h; simpa [runCalls] using h
  | cons n rest ih =>
    intro reg h
    have h2 := getOrCreate_keeps_lookup reg n name i h
    simpa [runCalls] using ih (getOrCreate reg n).2 h2

/-- C8: the Store Registry keeps at most one instance per store name per
process.  The instance is recorded under its name; any later `getOrCreate`
for the same name — even after arbitrary other calls — returns that same
instance without modifying the registry; on first access (no recorded
instance) the instance is freshly, lazily constructed; and a call for an
already-recorded name returns it unchanged. -/
theorem registry_one_instance_per_name (reg : Registry) (name : String) :
    ((getOrCreate reg name).2).table.lookup name = some (getOrCreate reg name).1 ∧
    (∀ others : List String,
      getOrCreate (runCalls (getOrCreate reg name).2 others) name =
        ((getOrCreate reg name).1, runCalls (getOrCreate reg name).2 others)) ∧
    (reg.table.lookup name = none →
      (getOrCreate reg name).1 = reg.nextId ∧
      (getOrCreate reg name).2.table = (name, reg.nextId) :: reg.table) ∧
    (∀ i, reg.table.lookup name = some i → getOrCreate reg name = (i, reg)) := by
  have hself : ((getOrCreate reg name).2).table.lookup name =
      some (getOrCreate reg name).1 := by
    unfold getOrCreate
    cases hn : reg.table.lookup name with
    | some j => simpa using hn
    | none => simp [List.lookup]
  refine ⟨hself, ?_, ?_, ?_⟩
  · intro others
    exact getOrCreate_found _ name _
      (runCalls_keeps_lookup name (getOrCreate reg name).1 others
        (getOrCreate reg name).2 hself)
  · intro h
    unfold getOrCreate
    rw [h]
    exact ⟨rfl, rfl⟩
  · intro i h
    exact getOrCreate_found reg name i h

/-- C8 witness: the theorem applied to the empty registry and the
`lens-hotbar-store` name, with interleaved calls for other store names. -/
theorem registry_one_instance_per_name_case :
    getOrCreate (runCalls (getOrCreate ⟨[], 0⟩ "lens-hotbar-store").2
        ["prefs", "lens-hotbar-store", "dock"]) "lens-hotbar-store" =
      ((getOrCreate (⟨[], 0⟩ : Registry) "lens-hotbar-store").1,
        runCalls (getOrCreate ⟨[], 0⟩ "lens-hotbar-store").2
          ["prefs", "lens-hotbar-store", "dock"]) ∧
    (getOrCreate (⟨[], 0⟩ : Registry) "lens-hotbar-store").1 = (⟨[], 0⟩ : Registry).nextId :=
  ⟨(registry_one_instance_per_name ⟨[], 0⟩ "lens-hotbar-store").2.1
      ["prefs", "lens-hotbar-store", "dock"],
   ((registry_one_instance_per_name ⟨[], 0⟩ "lens-hotbar-store").2.2.1 rfl).1⟩

/-- The raw, unvalidated per-tab value held by the dock-tab storage: the six
fields the `logTabDataValidator` Joi schema inspects, each possibly absent
and of arbitrary JSON type.  (`nspace` stands for the source's `namespace`
field, which is a reserved word here.) -/
structure RawLogTabData where
  podsOwner : Option JVal
  selectedPod : Option JVal
  nspace : Option JVal
  selectedContainer : Option JVal
  showTimestamps : Option JVal
  previous : Option JVal

/-- `Joi.string().optional()`: absent is fine, a present value must be a
string. -/
def joiOptionalString : Option JVal → Option (Option String)
  | none => some none
  | some (.jstr s) => some (some s)
  | some _ => none

/-- `Joi.string().required()`. -/
def joiRequiredString : Option JVal → Option String
  | some (.jstr s) => some s
  | _ => none

/-- `Joi.boolean().required()`. -/
def joiRequiredBool : Option JVal → Option Bool
  | some (.jbool b) => some b
  | _ => none

/-- `LogTabData` of `log-tab.store`: the validated shape. -/
structure LogTabData where
  podsOwner : Option String
  selectedPod : String
  nspace : String
  selectedContainer : Option String
  showTimestamps : Bool
  previous : Bool

/-- The `logTabDataValidator` Joi schema of `log-tab.store`: `podsOwner`
optional string, `selectedPod` required string, `namespace` required string,
`selectedContainer` optional string, `showTimestamps` and `previous`
required booleans.  Returns the validated value, or `none` on a validation
error. -/
def logTabDataValidator (raw : RawLogTabData) : Option LogTabData := do
  let podsOwner ← joiOptionalString raw.podsOwner
  let selectedPod ← joiRequiredString raw.selectedPod
  let nspace ← joiRequiredString raw.nspace
  let selectedContainer ← joiOptionalString raw.selectedContainer
  let showTimestamps ← joiRequiredBool raw.showTimestamps
  let previous ← joiRequiredBool raw.previous
  pure ⟨podsOwner, selectedPod, nspace, selectedContainer, showTimestamps, previous⟩

/-- The state `LogTabStore.getData` touches: the inherited `DockTabStore`
per-tab storage map and the dock's open tabs (for `dockManager.closeTab`). -/
structure LogTabStoreState where
  data : List (String × RawLogTabData)
  dockTabs : List String

/-- `DockTabStore.clearData(tabId)`: remove the tab's stored data. -/
def clearData (s : LogTabStoreState) (tabId : String) : LogTabStoreState :=
  { s with data := s.data.filter (fun p => p.1 != tabId) }

/-- `LogTabStore.closeTab(tabId)`: clear the tab's data and close the dock
tab. -/
def closeTab (s : LogTabStoreState) (tabId : String) : LogTabStoreState :=
  { data := (clearData s tabId).data,
    dockTabs := s.dockTabs.filter (fun t => t != tabId) }

/-- `LogTabStore.getData(tabId)`: `undefined` when no data is stored for the
tab; otherwise the stored value is validated — on error a warning is logged,
the tab is closed (its data cleared) and `undefined` is returned, else the
validated value is returned.  The result is the returned value, the store
state afterwards, and the warnings logged. -/
def getData (s : LogTabStoreState) (tabId : String) :
    Option LogTabData × LogTabStoreState × List String :=
  match s.data.lookup tabId with
  | none => (none, s, [])
  | some raw =>
    match logTabDataValidator raw with
    | some value => (some value, s, [])
    | none =>
      (none, closeTab s tabId,
        ["[LOG-TAB-STORE]: data for " ++ tabId ++ " was invalid"])

theorem lookup_filter_key_ne (tabId : String) :
    ∀ xs : List (String × RawLogTabData),
      (xs.filter (fun p => p.1 != tabId)).lookup tabId = none := by
  intro xs
  induction xs with
  | nil => rfl
  | cons p rest ih =>
    by_cases h : p.1 = tabId
    · simp [List.filter, h, ih]
    · have hne : (p.1 != tabId) = true := by simp [h]
      have hne2 : (tabId == p.1) = false := by
        simp
        exact fun he => h he.symm
      simp [List.filter, hne, List.lookup, hne2, ih]

/-- C9: `getData` is total (never throws) and never returns a value that
fails the schema: with nothing stored for the tab it returns `undefined`
and leaves the state alone; a returned value always comes from a successful
validation of the stored data, with the state untouched; and when the
stored data fails validation it logs a warning, clears that tab's data,
closes the dock tab and returns `undefined`, so a subsequent `getData` for
the same tab also returns `undefined`. -/
theorem getData_total_and_validated (s : LogTabStoreState) (tabId : String) :
    (s.data.lookup tabId = none → getData s tabId = (none, s, [])) ∧
    (∀ v s2 logs, getData s tabId = (some v, s2, logs) →
      ∃ raw, s.data.lookup tabId = some raw ∧
        logTabDataValidator raw = some v ∧ s2 = s ∧ logs = []) ∧
    (∀ raw, s.data.lookup tabId = some raw → logTabDataValidator raw = none →
      getData s tabId = (none, closeTab s tabId,
        ["[LOG-TAB-STORE]: data for " ++ tabId ++ " was invalid"]) ∧
      (closeTab s tabId).data.lookup tabId = none ∧
      tabId ∉ (closeTab s tabId).dockTabs ∧
      getData (closeTab s tabId) tabId = (none, closeTab s tabId, [])) := by
  refine ⟨?_, ?_, ?_⟩
  · intro h
    simp [getData, h]
  · intro v s2 logs hv
    cases hl : s.data.lookup tabId with
    | none =>
      simp only [getData, hl] at hv
      simp at hv
    | some raw =>
      cases hval : logTabDataValidator raw with
      | none =>
        simp only [getData, hl, hval] at hv
        simp at hv
      | some value =>
        simp only [getData, hl, hval, Prod.mk.injEq] at hv
        obtain ⟨h1, h2, h3⟩ := hv
        exact ⟨raw, rfl, by rw [hval, h1], h2.symm, h3.symm⟩
  · intro raw hl hval
    have hclear : (closeTab s tabId).data.lookup tabId = none :=
      lookup_filter_key_ne tabId s.data
    refine ⟨by simp only [getData, hl, hval], hclear, ?_,
      by simp only [getData, hclear]⟩
    simp [closeTab]

/-- C9 witness: the theorem applied to a concrete store holding an invalid
entry (boolean `selectedPod`) for tab `t1`. -/
theorem getData_total_and_validated_case :
    getData ⟨[("t1", ⟨none, some (.jbool true), some (.jstr "ns"), none,
        some (.jbool false), some (.jbool false)⟩)], ["t1", "t2"]⟩ "t1" =
      (none, closeTab ⟨[("t1", ⟨none, some (.jbool true), some (.jstr "ns"), none,
        some (.jbool false), some (.jbool false)⟩)], ["t1", "t2"]⟩ "t1",
        ["[LOG-TAB-STORE]: data for " ++ "t1" ++ " was invalid"]) ∧
    getData (closeTab ⟨[("t1", ⟨none, some (.jbool true), some (.jstr "ns"), none,
        some (.jbool false), some (.jbool false)⟩)], ["t1", "t2"]⟩ "t1") "t1" =
      (none, closeTab ⟨[("t1", ⟨none, some (.jbool true), some (.jstr "ns"), none,
        some (.jbool false), some (.jbool false)⟩)], ["t1", "t2"]⟩ "t1", []) := by
  have h := (getData_total_and_validated ⟨[("t1", ⟨none, some (.jbool true),
    some (.jstr "ns"), none, some (.jbool false), some (.jbool false)⟩)],
    ["t1", "t2"]⟩ "t1").2.2 ⟨none, some (.jbool true), some (.jstr "ns"), none,
    some (.jbool false), some (.jbool false)⟩ rfl rfl
  exact ⟨h.1, h.2.2.2⟩

/-- The item map of a `BaseRegistry` (mobx `observable.map`), as a keyed
partial function. -/
def setItem {I ItemId : Type} [DecidableEq ItemId]
    (m : ItemId → Option I) (id : ItemId) (v : I) : ItemId → Option I :=
  fun j => if j = id then some v else m j

def delItem {I ItemId : Type} [DecidableEq ItemId]
    (m : ItemId → Option I) (id : ItemId) : ItemId → Option I :=
  fun j => if j = id then none else m j

/-- The loop body of `BaseRegistry.add`: for each registered `(id, item)`
pair, insert it only when `id` is not already present, recording the newly
added ids in encounter order. -/
def addItems {I ItemId : Type} [DecidableEq ItemId]
    (m : ItemId → Option I) : List (ItemId × I) → (ItemId → Option I) × List ItemId
  | [] => (m, [])
  | (id, v) :: rest =>
    match m id with
    | some _ => addItems m rest
    | none =>
      let r := addItems (setItem m id v) rest
      (r.1, id :: r.2)

/-- `BaseRegistry.add(items)`: register the items through
`getRegisteredItem` (the `extension` argument is absorbed into the
function), returning the updated map and the id list captured by the
returned disposer.  -/
def add {T I ItemId : Type} [DecidableEq ItemId]
    (getRegisteredItem : T → ItemId × I) (m : ItemId → Option I) (items : List T) :
    (ItemId → Option I) × List ItemId :=
  addItems m (items.map getRegisteredItem)

/-- The disposer returned by `BaseRegistry.add`: delete each recorded id. -/
def runDisposer {I ItemId : Type} [DecidableEq ItemId]
    (m : ItemId → Option I) (ids : List ItemId) : ItemId → Option I :=
  ids.foldl delItem m

theorem runDisposer_apply {I ItemId : Type} [DecidableEq ItemId] :
    ∀ (ids : List ItemId) (m : ItemId → Option I) (j : ItemId),
      runDisposer m ids j = if j ∈ ids then none else m j := by
  intro ids
  induction ids with
  | nil => intro m j; simp [runDisposer]
  | cons id rest ih =>
    intro m j
    have hstep : runDisposer m (id :: rest) = runDisposer (delItem m id) rest := rfl
    rw [hstep, ih]
    by_cases h1 : j ∈ rest
    · simp [h1]
    · by_cases h2 : j = id
      · simp [h1, h2, delItem]
      · simp [h1, h2, delItem]

theorem addItems_new_ids_were_absent {I ItemId : Type} [DecidableEq ItemId] :
    ∀ (pairs : List (ItemId × I)) (m : ItemId → Option I) (j : ItemId),
      j ∈ (addItems m pairs).2 → m j = none := by
  intro pairs
  induction pairs with
  | nil => intro m j hj; simp [addItems] at hj
  | cons p rest ih =>
    intro m j hj
    obtain ⟨id, v⟩ := p
    cases hm : m id with
    | some w =>
      rw [addItems, hm] at hj
      exact ih m j hj
    | none =>
      rw [addItems, hm] at hj
      rcases List.mem_cons.mp hj with he | hmem
      · rw [he]; exact hm
      · have habs := ih (setItem m id v) j hmem
        by_cases hji : j = id
        · rw [setItem, if_pos hji] at habs
          cases habs
        · rw [setItem, if_neg hji] at habs
          exact habs

theorem addItems_keeps_others {I ItemId : Type} [DecidableEq ItemId] :
    ∀ (pairs : List (ItemId × I)) (m : ItemId → Option I) (j : ItemId),
      j ∉ (addItems m pairs).2 → (addItems m pairs).1 j = m j := by
  intro pairs
  induction pairs with
  | nil => intro m j _; simp [addItems]
  | cons p rest ih =>
    intro m j hj
    obtain ⟨id, v⟩ := p
    cases hm : m id with
    | some w =>
      rw [addItems, hm] at hj ⊢
      exact ih m j hj
    | none =>
      rw [addItems, hm] at hj ⊢
      have hji : j ≠ id := fun he => hj (by simp [he])
      have hmem : j ∉ (addItems (setItem m id v) rest).2 :=
        fun hx => hj (List.mem_cons_of_mem id hx)
      have := ih (setItem m id v) j hmem
      rw [this, setItem, if_neg hji]

/-- C10: `BaseRegistry.add` registers only items whose id is not already
present (existing entries are never overwritten), the ids captured by the
returned disposer were all absent before the call, and running the disposer
restores the item map pointwise to its state before the `add`. -/
theorem add_then_disposer_restores {T I ItemId : Type} [DecidableEq ItemId]
    (getRegisteredItem : T → ItemId × I) (m : ItemId → Option I) (items : List T) :
    (∀ id v, m id = some v → (add getRegisteredItem m items).1 id = some v) ∧
    (∀ id, id ∈ (add getRegisteredItem m items).2 → m id = none) ∧
    (∀ j, runDisposer (add getRegisteredItem m items).1
        (add getRegisteredItem m items).2 j = m j) := by
  unfold add
  refine ⟨?_, ?_, ?_⟩
  · intro id v hv
    have hnot : id ∉ (addItems m (items.map getRegisteredItem)).2 := by
      intro hmem
      have := addItems_new_ids_were_absent (items.map getRegisteredItem) m id hmem
      rw [this] at hv
      cases hv
    have := addItems_keeps_others (items.map getRegisteredItem) m id hnot
    rw [this, hv]
  · exact fun id hmem =>
      addItems_new_ids_were_absent (items.map getRegisteredItem) m id hmem
  · intro j
    rw [runDisposer_apply]
    by_cases hmem : j ∈ (addItems m (items.map getRegisteredItem)).2
    · rw [if_pos hmem]
      exact (addItems_new_ids_were_absent (items.map getRegisteredItem) m j hmem).symm
    · rw [if_neg hmem]
      exact addItems_keeps_others (items.map getRegisteredItem) m j hmem

/-- C10 witness: the theorem applied to a concrete map holding id `0` and an
`add` of items with ids `0` (already present, skipped) and `1` (new). -/
theorem add_then_disposer_restores_case :
    (add (fun p => p) (fun j => if j = 0 then some 5 else none) [(0, 9), (1, 7)]).1 0 =
      some 5 ∧
    runDisposer (add (fun p => p) (fun j => if j = 0 then some 5 else none)
        [(0, 9), (1, 7)]).1
      (add (fun p => p) (fun j => if j = 0 then some 5 else none) [(0, 9), (1, 7)]).2 1 =
      (fun j : Nat => if j = 0 then some 5 else (none : Option Nat)) 1 :=
  ⟨(add_then_disposer_restores (fun p => p)
      (fun j => if j = 0 then some 5 else none) [(0, 9), (1, 7)]).1 0 5 rfl,
   (add_then_disposer_restores (fun p => p)
      (fun j => if j = 0 then some 5 else none) [(0, 9), (1, 7)]).2.2 1⟩

end Lens
